import Mathlib

/-!
Shallow embedding of the ERC-7930 Interoperable Address encoder
(src/constants.ts, src/types.ts, src/utils.ts, src/encoder.ts).

Byte sequences (JS `Uint8Array`) are modelled as `List Nat` whose elements
are intended to lie below 256; machine arithmetic is modelled with `Nat`
division and modulus (the code only applies its bit operations to small
non-negative numbers, where JS `& 0xff` is `% 256` and `>> 8` is `/ 256`).
The keccak-256 primitive comes from the external `@noble/hashes` library and
the repository treats it as an opaque 32-byte digest, so the checksum
functions here take it as an explicit function parameter.  Fallible
operations (hex decoding, validation) return `Option`/`Except`.
-/

/-- VERSION_1 from src/constants.ts: `export const VERSION_1 = 0x0001`. -/
def VERSION_1 : Nat := 0x0001

/-- ChainType.EIP155 from src/constants.ts. -/
def ChainTypeEIP155 : Nat := 0x0000

/-- ChainType.SOLANA from src/constants.ts. -/
def ChainTypeSOLANA : Nat := 0x0002

/-- numberToBytes(num, length) from src/utils.ts: fills an array of exactly
`length` bytes from the last index backwards with `num & 0xff`, shifting
`num` right by 8 bits each step; so the result is the big-endian encoding of
`num` truncated to `length` bytes. -/
def numberToBytes : Nat → Nat → List Nat
  | _, 0 => []
  | num, n + 1 => numberToBytes (num / 256) n ++ [num % 256]

/-- concatBytes(...arrays) from src/utils.ts: concatenation in argument
order (delegates to noble's concatBytes). -/
def concatBytes (arrays : List (List Nat)) : List Nat :=
  arrays.foldr (fun a b => a ++ b) []

/-- Modelled from the spec: numberToMinBytes is imported by src/encoder.ts
from src/utils.ts, but its definition is missing from the provided sources
(the provided utils.ts excerpt predates it).  Spec 4.1: it encodes a
non-negative integer into the minimum number of big-endian bytes that
represents it without leading zero bytes, except that 0 encodes to the
empty sequence.  `minBytesGo` carries fuel purely as a termination device;
`minBytesGo_irrel` below shows the result is fuel-independent. -/
def minBytesGo : Nat → Nat → List Nat
  | 0, _ => []
  | fuel + 1, num => if num = 0 then [] else minBytesGo fuel (num / 256) ++ [num % 256]

/-- Modelled from the spec: see `minBytesGo`. -/
def numberToMinBytes (num : Nat) : List Nat := minBytesGo num num

/-- The ascii-to-hex-digit table of noble's hexToBytes (external collaborator
of src/utils.ts).  Accepts 0-9, a-f and A-F. -/
def hexCharToNat? (c : Char) : Option Nat :=
  if '0' ≤ c ∧ c ≤ '9' then some (c.toNat - '0'.toNat)
  else if 'a' ≤ c ∧ c ≤ 'f' then some (c.toNat - 'a'.toNat + 10)
  else if 'A' ≤ c ∧ c ≤ 'F' then some (c.toNat - 'A'.toNat + 10)
  else none

/-- The pair loop of noble's hexToBytes: decodes two hex digits per byte,
failing on odd length or a non-hex character. -/
def hexPairsToBytes : List Char → Option (List Nat)
  | [] => some []
  | [_] => none
  | c1 :: c2 :: rest =>
    match hexCharToNat? c1, hexCharToNat? c2, hexPairsToBytes rest with
    | some n1, some n2, some tail => some ((n1 * 16 + n2) :: tail)
    | _, _, _ => none

/-- The `hex.startsWith('0x') || hex.startsWith('0X')` preprocessing of
hexToBytes in src/utils.ts: drops a leading `0x` or `0X`. -/
def stripHexMark (s : List Char) : List Char :=
  match s with
  | c1 :: c2 :: rest =>
    if c1 = '0' ∧ (c2 = 'x' ∨ c2 = 'X') then rest else c1 :: c2 :: rest
  | s => s

/-- hexToBytes(hex) from src/utils.ts: strips an optional 0x/0X mark, then
decodes hex digit pairs; `none` models the thrown decode error. -/
def hexToBytes (hex : String) : Option (List Nat) :=
  hexPairsToBytes (stripHexMark hex.data)

/-- One hex digit, uppercase.  noble's bytesToHex emits lowercase digits and
the wrapper in src/utils.ts applies `.toUpperCase()`; this models the
composition. -/
def hexDigitUpper (n : Nat) : Char :=
  if n < 10 then Char.ofNat (Char.toNat '0' + n) else Char.ofNat (Char.toNat 'A' + (n - 10))

/-- Two uppercase hex digits for one byte. -/
def byteToHexChars (b : Nat) : List Char :=
  [hexDigitUpper (b / 16), hexDigitUpper (b % 16)]

/-- Uppercase hex rendering of a byte sequence, two digits per byte. -/
def bytesHexChars : List Nat → List Char
  | [] => []
  | b :: rest => byteToHexChars b ++ bytesHexChars rest

/-- bytesToHex(bytes, prefix = true) from src/utils.ts: uppercase hex,
with a leading `0x` iff the flag is set.  (The source calls the flag
`prefix`; that word is a reserved token here, hence `pfx`.) -/
def bytesToHex (bytes : List Nat) (pfx : Bool := true) : String :=
  (if pfx then "0x" else "") ++ String.mk (bytesHexChars bytes)

/-- InteroperableAddress from src/types.ts. -/
structure InteroperableAddress where
  version : Nat
  chainType : Nat
  chainReference : List Nat
  address : List Nat
deriving DecidableEq, Repr

/-- InteroperableName from src/types.ts. -/
structure InteroperableName where
  address : String
  chain : String
  checksum : String
deriving DecidableEq, Repr

/-- The `number | Uint8Array` union of the chainReference input parameter
(src/types.ts), as a tagged variant. -/
inductive ChainReferenceParam where
  | num (n : Nat)
  | bytes (b : List Nat)
deriving DecidableEq, Repr

/-- The `string | Uint8Array` union of the address input parameter
(src/types.ts), as a tagged variant. -/
inductive AddressParam where
  | hex (s : String)
  | bytes (b : List Nat)
deriving DecidableEq, Repr

/-- CreateInteroperableAddressParams from src/types.ts.  chainType is an
`Int` because the validation in src/encoder.ts checks `chainType < 0`. -/
structure CreateInteroperableAddressParams where
  chainType : Int
  chainReference : Option ChainReferenceParam := none
  address : Option AddressParam := none
deriving DecidableEq, Repr

/-- The two error kinds of the library: validation failures thrown by
createInteroperableAddress (with their exact message strings), and the
decode failure thrown inside noble's hexToBytes (whose message is external
to this repository). -/
inductive EncoderError where
  | validation (msg : String)
  | decode
deriving DecidableEq, Repr

/-- The chainReference normalization step of createInteroperableAddress
(src/encoder.ts lines 37-44): absent becomes empty, a number goes through
numberToMinBytes, raw bytes are used as-is. -/
def normalizeChainReference : Option ChainReferenceParam → List Nat
  | none => []
  | some (.num n) => numberToMinBytes n
  | some (.bytes b) => b

/-- The address normalization step of createInteroperableAddress
(src/encoder.ts lines 47-54): absent becomes empty, a string goes through
hexToBytes (which can fail), raw bytes are used as-is. -/
def normalizeAddress : Option AddressParam → Option (List Nat)
  | none => some []
  | some (.hex s) => hexToBytes s
  | some (.bytes b) => some b

/-- createInteroperableAddress(params) from src/encoder.ts: normalize both
optional fields, then validate in the source's fixed order, then build the
Address with version = VERSION_1. -/
def createInteroperableAddress (params : CreateInteroperableAddressParams) :
    Except EncoderError InteroperableAddress :=
  let chainReference := normalizeChainReference params.chainReference
  match normalizeAddress params.address with
  | none => .error .decode
  | some address =>
    if chainReference.length = 0 ∧ address.length = 0 then
      .error (.validation "At least one of chainReference or address must be provided")
    else if chainReference.length > 255 then
      .error (.validation "Chain reference length cannot exceed 255 bytes")
    else if address.length > 255 then
      .error (.validation "Address length cannot exceed 255 bytes")
    else if params.chainType < 0 ∨ params.chainType > 0xffff then
      .error (.validation "Chain type must be a 2-byte value (0-65535)")
    else
      .ok { version := VERSION_1
            chainType := params.chainType.toNat
            chainReference := chainReference
            address := address }

/-- encodeInteroperableAddress(interopAddress) from src/encoder.ts. -/
def encodeInteroperableAddress (a : InteroperableAddress) : List Nat :=
  concatBytes
    [ numberToBytes a.version 2
    , numberToBytes a.chainType 2
    , numberToBytes a.chainReference.length 1
    , a.chainReference
    , numberToBytes a.address.length 1
    , a.address ]

/-- calculateChecksum(interopAddress) from src/encoder.ts, parameterized by
the external keccak-256 primitive: hashes the encoding layout without the
2-byte version field, takes the first 4 digest bytes, renders them as
uppercase hex without a 0x mark. -/
def calculateChecksum (keccak256 : List Nat → List Nat)
    (a : InteroperableAddress) : String :=
  let chainType := numberToBytes a.chainType 2
  let chainReferenceLength := numberToBytes a.chainReference.length 1
  let addressLength := numberToBytes a.address.length 1
  let checksumInput := concatBytes
    [chainType, chainReferenceLength, a.chainReference, addressLength, a.address]
  let hash := keccak256 checksumInput
  bytesToHex (hash.take 4) false

/-- toInteroperableName from src/encoder.ts: packages the checksum with the
two caller-supplied display strings. -/
def toInteroperableName (keccak256 : List Nat → List Nat)
    (a : InteroperableAddress) (chainString addressString : String) :
    InteroperableName :=
  { address := addressString
    chain := chainString
    checksum := calculateChecksum keccak256 a }

/-- formatInteroperableName from src/encoder.ts:
renders `address@chain#checksum`. -/
def formatInteroperableName (name : InteroperableName) : String :=
  name.address ++ "@" ++ name.chain ++ "#" ++ name.checksum

/-- createAndEncode from src/encoder.ts: create then encode, propagating any
error unchanged. -/
def createAndEncode (params : CreateInteroperableAddressParams) :
    Except EncoderError (List Nat) :=
  (createInteroperableAddress params).map encodeInteroperableAddress

/-- Big-endian value of a byte sequence (specification device used to state
what a byte sequence represents). -/
def beVal : List Nat → Nat
  | [] => 0
  | b :: rest => b * 256 ^ rest.length + beVal rest

/-- Uppercase hex digit predicate (specification device). -/
def isUpperHexDigit (c : Char) : Bool :=
  ('0' ≤ c && c ≤ '9') || ('A' ≤ c && c ≤ 'F')

theorem numberToBytes_length (num n : Nat) : (numberToBytes num n).length = n := by
  induction n generalizing num with
  | zero => rfl
  | succ n ih => simp [numberToBytes, ih]

theorem numberToBytes_two (num : Nat) :
    numberToBytes num 2 = [num / 256 % 256, num % 256] := by
  simp [numberToBytes]

theorem numberToBytes_one (num : Nat) : numberToBytes num 1 = [num % 256] := by
  simp [numberToBytes]

theorem encode_explicit (a : InteroperableAddress) :
    encodeInteroperableAddress a =
      [a.version / 256 % 256, a.version % 256, a.chainType / 256 % 256, a.chainType % 256,
        a.chainReference.length % 256] ++ a.chainReference ++
        [a.address.length % 256] ++ a.address := by
  simp [encodeInteroperableAddress, concatBytes, numberToBytes_two, numberToBytes_one]

theorem encode_length (a : InteroperableAddress) :
    (encodeInteroperableAddress a).length =
      6 + a.chainReference.length + a.address.length := by
  rw [encode_explicit]
  simp
  omega

theorem minBytesGo_zero (fuel : Nat) : minBytesGo fuel 0 = [] := by
  cases fuel <;> simp [minBytesGo]

theorem minBytesGo_irrel (f1 : Nat) : ∀ f2 num, num ≤ f1 → num ≤ f2 →
    minBytesGo f1 num = minBytesGo f2 num := by
  induction f1 with
  | zero =>
    intro f2 num h1 _
    have : num = 0 := Nat.le_zero.mp h1
    subst this
    simp [minBytesGo_zero]
  | succ f ih =>
    intro f2 num h1 h2
    by_cases hz : num = 0
    · subst hz; simp [minBytesGo_zero]
    · cases f2 with
      | zero => omega
      | succ f2' =>
        have hlt : num / 256 < num := Nat.div_lt_self (Nat.pos_of_ne_zero hz) (by omega)
        simp only [minBytesGo, if_neg hz]
        rw [ih f2' (num / 256) (by omega) (by omega)]

theorem numberToMinBytes_zero : numberToMinBytes 0 = [] := rfl

theorem numberToMinBytes_eq (num : Nat) (h : num ≠ 0) :
    numberToMinBytes num = numberToMinBytes (num / 256) ++ [num % 256] := by
  cases num with
  | zero => exact absurd rfl h
  | succ k =>
    have hlt : (k + 1) / 256 < k + 1 := Nat.div_lt_self (by omega) (by omega)
    show minBytesGo (k + 1) (k + 1) = minBytesGo ((k + 1) / 256) ((k + 1) / 256) ++ _
    simp only [minBytesGo, if_neg h]
    rw [minBytesGo_irrel k ((k + 1) / 256) ((k + 1) / 256) (by omega) (by omega)]

theorem beVal_append_single (l : List Nat) (b : Nat) :
    beVal (l ++ [b]) = beVal l * 256 + b := by
  induction l with
  | nil => simp [beVal]
  | cons a l ih =>
    have hlen : (l ++ [b]).length = l.length + 1 := by simp
    simp only [List.cons_append, beVal, List.append_eq, ih, hlen]
    ring

theorem numberToMinBytes_beVal (n : Nat) : beVal (numberToMinBytes n) = n := by
  induction n using Nat.strong_induction_on with
  | _ n ih =>
    by_cases hz : n = 0
    · subst hz; rfl
    · rw [numberToMinBytes_eq n hz, beVal_append_single]
      have hlt : n / 256 < n := Nat.div_lt_self (Nat.pos_of_ne_zero hz) (by omega)
      rw [ih (n / 256) hlt]
      omega

theorem numberToMinBytes_bytes_lt (n : Nat) : ∀ b ∈ numberToMinBytes n, b < 256 := by
  induction n using Nat.strong_induction_on with
  | _ n ih =>
    by_cases hz : n = 0
    · subst hz; simp [numberToMinBytes_zero]
    · rw [numberToMinBytes_eq n hz]
      intro b hb
      rcases List.mem_append.mp hb with h | h
      · exact ih (n / 256) (Nat.div_lt_self (Nat.pos_of_ne_zero hz) (by omega)) b h
      · simp at h; omega

theorem numberToMinBytes_no_leading_zero (n : Nat) (h : n ≠ 0) :
    numberToMinBytes n ≠ [] ∧ (numberToMinBytes n).head? ≠ some 0 := by
  induction n using Nat.strong_induction_on with
  | _ n ih =>
    rw [numberToMinBytes_eq n h]
    by_cases hq : n / 256 = 0
    · rw [hq, numberToMinBytes_zero]
      have hn : n < 256 := by omega
      constructor
      · simp
      · simp [Nat.mod_eq_of_lt hn]
        omega
    · have hlt : n / 256 < n := Nat.div_lt_self (Nat.pos_of_ne_zero h) (by omega)
      obtain ⟨hne, hhd⟩ := ih (n / 256) hlt hq
      cases hmb : numberToMinBytes (n / 256) with
      | nil => exact absurd hmb hne
      | cons x xs =>
        rw [hmb] at hhd
        simp at hhd
        constructor
        · simp
        · simp [hhd]

theorem beVal_lt (l : List Nat) (h : ∀ b ∈ l, b < 256) : beVal l < 256 ^ l.length := by
  induction l with
  | nil => simp [beVal]
  | cons a l ih =>
    have ha : a < 256 := h a (List.mem_cons_self a l)
    have hl := ih (fun b hb => h b (List.mem_cons_of_mem a hb))
    simp only [beVal, List.length_cons, pow_succ]
    calc a * 256 ^ l.length + beVal l
        < a * 256 ^ l.length + 256 ^ l.length := by omega
      _ = (a + 1) * 256 ^ l.length := by ring
      _ ≤ 256 * 256 ^ l.length := by
          exact Nat.mul_le_mul_right _ (by omega)
      _ = 256 ^ l.length * 256 := by ring

theorem numberToMinBytes_length_le_of_lt (k : Nat) : ∀ n, n < 256 ^ k →
    (numberToMinBytes n).length ≤ k := by
  induction k with
  | zero =>
    intro n hn
    have : n = 0 := by simpa using hn
    subst this
    simp [numberToMinBytes_zero]
  | succ k ih =>
    intro n hn
    by_cases hz : n = 0
    · subst hz; simp [numberToMinBytes_zero]
    · rw [numberToMinBytes_eq n hz]
      have hq : n / 256 < 256 ^ k := by
        rw [Nat.div_lt_iff_lt_mul (by omega)]
        calc n < 256 ^ (k + 1) := hn
          _ = 256 ^ k * 256 := by ring
      have := ih (n / 256) hq
      simp only [List.length_append, List.length_cons, List.length_nil]
      omega

theorem numberToMinBytes_minimal_length (n : Nat) (l : List Nat)
    (hb : ∀ b ∈ l, b < 256) (hv : beVal l = n) :
    (numberToMinBytes n).length ≤ l.length := by
  exact numberToMinBytes_length_le_of_lt l.length n (hv ▸ beVal_lt l hb)

theorem hexDigitUpper_decode : ∀ n, n < 16 → hexCharToNat? (hexDigitUpper n) = some n := by
  decide

theorem hexDigitUpper_ne_xX : ∀ n, n < 16 → hexDigitUpper n ≠ 'x' ∧ hexDigitUpper n ≠ 'X' := by
  decide

theorem hexDigitUpper_upper : ∀ n, n < 16 → isUpperHexDigit (hexDigitUpper n) = true := by
  decide

theorem hexDigitUpper_toLower_decode :
    ∀ n, n < 16 → hexCharToNat? (Char.toLower (hexDigitUpper n)) = some n := by
  decide

theorem hexPairsToBytes_bytesHexChars (b : List Nat) (hb : ∀ x ∈ b, x < 256) :
    hexPairsToBytes (bytesHexChars b) = some b := by
  induction b with
  | nil => rfl
  | cons x b ih =>
    have hx : x < 256 := hb x (List.mem_cons_self x b)
    have h1 : x / 16 < 16 := by omega
    have h2 : x % 16 < 16 := by omega
    have ihr := ih (fun y hy => hb y (List.mem_cons_of_mem x hy))
    simp only [bytesHexChars, byteToHexChars, List.cons_append, List.nil_append,
      List.append_eq, hexPairsToBytes, hexDigitUpper_decode _ h1,
      hexDigitUpper_decode _ h2, ihr]
    have : x / 16 * 16 + x % 16 = x := by omega
    rw [this]

theorem stripHexMark_bytesHexChars (b : List Nat) (hb : ∀ x ∈ b, x < 256) :
    stripHexMark (bytesHexChars b) = bytesHexChars b := by
  cases b with
  | nil => rfl
  | cons x b =>
    have hx : x < 256 := hb x (List.mem_cons_self x b)
    have h2 : x % 16 < 16 := by omega
    obtain ⟨hnx, hnX⟩ := hexDigitUpper_ne_xX (x % 16) h2
    simp only [bytesHexChars, byteToHexChars, List.cons_append, List.nil_append,
      stripHexMark]
    rw [if_neg]
    rintro ⟨-, h | h⟩
    · exact hnx h
    · exact hnX h

theorem bytesHexChars_length (b : List Nat) : (bytesHexChars b).length = 2 * b.length := by
  induction b with
  | nil => rfl
  | cons x b ih => simp [bytesHexChars, byteToHexChars, ih]; omega

theorem bytesHexChars_upper (b : List Nat) (hb : ∀ x ∈ b, x < 256) :
    ∀ c ∈ bytesHexChars b, isUpperHexDigit c = true := by
  induction b with
  | nil => simp [bytesHexChars]
  | cons x b ih =>
    have hx : x < 256 := hb x (List.mem_cons_self x b)
    intro c hc
    simp only [bytesHexChars, byteToHexChars, List.cons_append, List.nil_append,
      List.mem_cons] at hc
    rcases hc with h | h | h
    · exact h ▸ hexDigitUpper_upper (x / 16) (by omega)
    · exact h ▸ hexDigitUpper_upper (x % 16) (by omega)
    · exact ih (fun y hy => hb y (List.mem_cons_of_mem x hy)) c h

theorem bytesToHex_false_data (b : List Nat) :
    (bytesToHex b false).data = bytesHexChars b := rfl

theorem hexToBytes_bytesToHex (b : List Nat) (hb : ∀ x ∈ b, x < 256) :
    hexToBytes (bytesToHex b false) = some b := by
  show hexPairsToBytes (stripHexMark (bytesToHex b false).data) = some b
  rw [bytesToHex_false_data, stripHexMark_bytesHexChars b hb,
    hexPairsToBytes_bytesHexChars b hb]

theorem createInteroperableAddress_eq (p : CreateInteroperableAddressParams)
    (addr : List Nat) (hna : normalizeAddress p.address = some addr) :
    createInteroperableAddress p =
      (if (normalizeChainReference p.chainReference).length = 0 ∧ addr.length = 0 then
        .error (.validation "At least one of chainReference or address must be provided")
      else if (normalizeChainReference p.chainReference).length > 255 then
        .error (.validation "Chain reference length cannot exceed 255 bytes")
      else if addr.length > 255 then
        .error (.validation "Address length cannot exceed 255 bytes")
      else if p.chainType < 0 ∨ p.chainType > 0xffff then
        .error (.validation "Chain type must be a 2-byte value (0-65535)")
      else
        .ok { version := VERSION_1
              chainType := p.chainType.toNat
              chainReference := normalizeChainReference p.chainReference
              address := addr }) := by
  unfold createInteroperableAddress
  rw [hna]

theorem createInteroperableAddress_decode (p : CreateInteroperableAddressParams)
    (hna : normalizeAddress p.address = none) :
    createInteroperableAddress p = .error .decode := by
  unfold createInteroperableAddress
  rw [hna]

/-- C1: for every valid Address (byte-sequence fields of length at most 255,
2-byte version and chainType), encodeInteroperableAddress returns exactly
version as 2 big-endian bytes, then chainType as 2 big-endian bytes, then
the chainReference length byte, the chainReference bytes, the address length
byte and the address bytes; consequently the output length is
6 + chainReference.length + address.length. -/
theorem C1_encode_layout_and_length (a : InteroperableAddress)
    (hv : a.version ≤ 65535) (hct : a.chainType ≤ 65535)
    (hcr : a.chainReference.length ≤ 255) (ha : a.address.length ≤ 255) :
    encodeInteroperableAddress a =
      [a.version / 256, a.version % 256, a.chainType / 256, a.chainType % 256,
        a.chainReference.length] ++ a.chainReference ++
        [a.address.length] ++ a.address ∧
    (encodeInteroperableAddress a).length =
      6 + a.chainReference.length + a.address.length := by
  refine ⟨?_, encode_length a⟩
  rw [encode_explicit]
  have h1 : a.version / 256 % 256 = a.version / 256 := Nat.mod_eq_of_lt (by omega)
  have h2 : a.chainType / 256 % 256 = a.chainType / 256 := Nat.mod_eq_of_lt (by omega)
  have h3 : a.chainReference.length % 256 = a.chainReference.length :=
    Nat.mod_eq_of_lt (by omega)
  have h4 : a.address.length % 256 = a.address.length := Nat.mod_eq_of_lt (by omega)
  rw [h1, h2, h3, h4]

/-- C1 witness: the layout theorem applied to a concrete valid Address. -/
theorem C1_encode_layout_and_length_witness :
    encodeInteroperableAddress ⟨1, 0, [1], [0x14, 0x20]⟩ =
      [0, 1, 0, 0, 1] ++ [1] ++ [2] ++ [0x14, 0x20] ∧
    (encodeInteroperableAddress ⟨1, 0, [1], [0x14, 0x20]⟩).length = 6 + 1 + 2 :=
  C1_encode_layout_and_length ⟨1, 0, [1], [0x14, 0x20]⟩
    (by decide) (by decide) (by decide) (by decide)

/-- C8: formatting the name built by toInteroperableName yields exactly
addressString ++ "@" ++ chainString ++ "#" ++ checksum, with no validation
or transformation of the two caller-supplied strings; with an empty
addressString the result begins with "@". -/
theorem C8_format_toInteroperableName (keccak256 : List Nat → List Nat)
    (a : InteroperableAddress) (chainString addressString : String) :
    formatInteroperableName (toInteroperableName keccak256 a chainString addressString) =
      addressString ++ "@" ++ chainString ++ "#" ++ calculateChecksum keccak256 a ∧
    formatInteroperableName (toInteroperableName keccak256 a chainString "") =
      "@" ++ chainString ++ "#" ++ calculateChecksum keccak256 a :=
  ⟨rfl, rfl⟩

set_option maxRecDepth 8000 in
/-- C9: encodeInteroperableAddress is a total function of the Address record
that performs no re-validation: even for Addresses violating the builder's
invariant, each 1-byte length field is the byte length modulo 256, and the
output length is always 6 + chainReference.length + address.length.  In
particular an Address whose address field has 256 bytes encodes with an
address length byte of 0x00 followed by all 256 address bytes. -/
theorem C9_encode_total_mod256 (a : InteroperableAddress) :
    encodeInteroperableAddress a =
      [a.version / 256 % 256, a.version % 256, a.chainType / 256 % 256, a.chainType % 256,
        a.chainReference.length % 256] ++ a.chainReference ++
        [a.address.length % 256] ++ a.address ∧
    (encodeInteroperableAddress a).length =
      6 + a.chainReference.length + a.address.length ∧
    encodeInteroperableAddress ⟨1, 0, [], List.replicate 256 7⟩ =
      [0, 1, 0, 0, 0, 0] ++ List.replicate 256 7 :=
  ⟨encode_explicit a, encode_length a, by rw [encode_explicit]; simp⟩

/-- C10: for every chainType, createInteroperableAddress with chainReference
given as the number 0 and address absent fails with the first validation
error (both fields empty), because numberToMinBytes 0 normalizes to the
empty byte sequence. -/
theorem C10_zero_chainReference_not_provided (ct : Int) :
    createInteroperableAddress ⟨ct, some (.num 0), none⟩ =
      .error (.validation "At least one of chainReference or address must be provided") ∧
    numberToMinBytes 0 = [] ∧
    normalizeChainReference (some (.num 0)) = [] := by
  refine ⟨?_, rfl, rfl⟩
  rw [createInteroperableAddress_eq ⟨ct, some (.num 0), none⟩ [] rfl]
  rfl

/-- C3: given that normalization of the address field succeeds,
createInteroperableAddress fails exactly when, after normalization, both
fields are empty, or the chainReference exceeds 255 bytes, or the address
exceeds 255 bytes, or chainType is outside 0..65535; and the checks run in
that fixed order, the first failing check determining the error. -/
theorem C3_create_failure_characterization (p : CreateInteroperableAddressParams)
    (cr addr : List Nat)
    (hcr : normalizeChainReference p.chainReference = cr)
    (hna : normalizeAddress p.address = some addr) :
    ((∃ a, createInteroperableAddress p = .ok a) ↔
      ¬((cr = [] ∧ addr = []) ∨ cr.length > 255 ∨ addr.length > 255 ∨
        p.chainType < 0 ∨ p.chainType > 65535)) ∧
    (∀ m, createInteroperableAddress p = .error (.validation m) →
      m = if cr = [] ∧ addr = [] then
            "At least one of chainReference or address must be provided"
          else if cr.length > 255 then
            "Chain reference length cannot exceed 255 bytes"
          else if addr.length > 255 then
            "Address length cannot exceed 255 bytes"
          else
            "Chain type must be a 2-byte value (0-65535)") := by
  rw [createInteroperableAddress_eq p addr hna, hcr]
  have hempty : (cr.length = 0 ∧ addr.length = 0) ↔ (cr = [] ∧ addr = []) := by
    simp [List.length_eq_zero]
  simp only [hempty]
  constructor
  · split_ifs with h1 h2 h3 h4
    · constructor
      · rintro ⟨a, ha⟩
        exact ha.elim
      · intro hc
        exact absurd (Or.inl h1) hc
    · constructor
      · rintro ⟨a, ha⟩
        exact ha.elim
      · intro hc
        exact absurd (Or.inr (Or.inl h2)) hc
    · constructor
      · rintro ⟨a, ha⟩
        exact ha.elim
      · intro hc
        exact absurd (Or.inr (Or.inr (Or.inl h3))) hc
    · constructor
      · rintro ⟨a, ha⟩
        exact ha.elim
      · intro hc
        exact absurd (Or.inr (Or.inr (Or.inr h4))) hc
    · constructor
      · intro _
        rintro (h | h | h | h)
        · exact h1 h
        · exact h2 h
        · exact h3 h
        · exact h4 h
      · intro _
        exact ⟨_, rfl⟩
  · intro m hm
    split_ifs at hm ⊢ with h1 h2 h3 h4
    · simp only [Except.error.injEq, EncoderError.validation.injEq] at hm
      exact hm.symm
    · simp only [Except.error.injEq, EncoderError.validation.injEq] at hm
      exact hm.symm
    · simp only [Except.error.injEq, EncoderError.validation.injEq] at hm
      exact hm.symm
    · simp only [Except.error.injEq, EncoderError.validation.injEq] at hm
      exact hm.symm

set_option maxRecDepth 8000 in
/-- C3 witness: a chainReference of exactly 255 bytes (with chainType 0 and
no address) is accepted, via the characterization theorem at that input. -/
theorem C3_create_failure_characterization_witness :
    ∃ a, createInteroperableAddress
      ⟨0, some (.bytes (List.replicate 255 1)), none⟩ = .ok a := by
  have h := C3_create_failure_characterization
    ⟨0, some (.bytes (List.replicate 255 1)), none⟩ (List.replicate 255 1) [] rfl rfl
  exact h.1.mpr (by decide)

/-- C4: whenever createInteroperableAddress succeeds, the returned Address
has version 1, the given chainType, the normalized chainReference (absent
becomes empty, a number goes through numberToMinBytes, raw bytes pass
through) and the normalized address (absent becomes empty, a hex string
goes through hexToBytes, raw bytes pass through).  The embedding is a pure
function, so no side effects are possible. -/
theorem C4_create_success_fields (p : CreateInteroperableAddressParams)
    (a : InteroperableAddress) (h : createInteroperableAddress p = .ok a) :
    a.version = 1 ∧ (a.chainType : Int) = p.chainType ∧
    a.chainReference = normalizeChainReference p.chainReference ∧
    normalizeAddress p.address = some a.address ∧
    normalizeChainReference none = [] ∧
    (∀ n, normalizeChainReference (some (.num n)) = numberToMinBytes n) ∧
    (∀ b, normalizeChainReference (some (.bytes b)) = b) ∧
    normalizeAddress none = some [] ∧
    (∀ s, normalizeAddress (some (.hex s)) = hexToBytes s) ∧
    (∀ b, normalizeAddress (some (.bytes b)) = some b) := by
  cases hna : normalizeAddress p.address with
  | none =>
    rw [createInteroperableAddress_decode p hna] at h
    exact Except.noConfusion h
  | some addr =>
    rw [createInteroperableAddress_eq p addr hna] at h
    split_ifs at h with h1 h2 h3 h4
    simp only [Except.ok.injEq] at h
    subst h
    refine ⟨rfl, ?_, rfl, rfl, rfl, fun n => rfl, fun b => rfl, rfl,
      fun s => rfl, fun b => rfl⟩
    show ((p.chainType.toNat : Nat) : Int) = p.chainType
    rw [not_or] at h4
    exact Int.toNat_of_nonneg (by omega)

/-- C4 witness: the field characterization applied to a concrete successful
construction. -/
theorem C4_create_success_fields_witness :
    (InteroperableAddress.mk 1 0 [1] [5]).version = 1 :=
  (C4_create_success_fields ⟨0, some (.num 1), some (.bytes [5])⟩
    ⟨1, 0, [1], [5]⟩ rfl).1

/-- C6 counterexample: the code's actual message for the empty-both failure
is capitalized ("At least one ..."), not the spec's canonical lowercase
"at least one of chainReference or address must be provided". -/
theorem C6_counterexample :
    createInteroperableAddress ⟨0, none, none⟩ =
      .error (.validation "At least one of chainReference or address must be provided") ∧
    createInteroperableAddress ⟨0, none, none⟩ ≠
      .error (.validation "at least one of chainReference or address must be provided") := by
  refine ⟨rfl, ?_⟩
  intro h
  exact absurd (congrArg (fun r => match r with
    | Except.error (EncoderError.validation m) => m
    | _ => "") h) (by decide)

/-- C6 amended: each of the four validation failures of
createInteroperableAddress carries the code's actual message text:
"At least one of chainReference or address must be provided",
"Chain reference length cannot exceed 255 bytes",
"Address length cannot exceed 255 bytes" and
"Chain type must be a 2-byte value (0-65535)", surfaced verbatim. -/
theorem C6_amended_error_messages (p : CreateInteroperableAddressParams)
    (cr addr : List Nat)
    (hcr : normalizeChainReference p.chainReference = cr)
    (hna : normalizeAddress p.address = some addr) :
    (cr = [] ∧ addr = [] →
      createInteroperableAddress p =
        .error (.validation "At least one of chainReference or address must be provided")) ∧
    (cr.length > 255 →
      createInteroperableAddress p =
        .error (.validation "Chain reference length cannot exceed 255 bytes")) ∧
    (cr.length ≤ 255 → addr.length > 255 →
      createInteroperableAddress p =
        .error (.validation "Address length cannot exceed 255 bytes")) ∧
    (cr.length ≤ 255 → addr.length ≤ 255 → ¬(cr = [] ∧ addr = []) →
      p.chainType < 0 ∨ p.chainType > 65535 →
      createInteroperableAddress p =
        .error (.validation "Chain type must be a 2-byte value (0-65535)")) := by
  rw [createInteroperableAddress_eq p addr hna, hcr]
  refine ⟨?_, ?_, ?_, ?_⟩
  · rintro ⟨hc, ha⟩
    subst hc
    subst ha
    rfl
  · intro h2
    rw [if_neg (by omega), if_pos h2]
  · intro hle h3
    rw [if_neg (by omega), if_neg (by omega), if_pos h3]
  · intro hle1 hle2 hne h4
    rw [if_neg (fun hc => hne ⟨List.length_eq_zero.mp hc.1, List.length_eq_zero.mp hc.2⟩),
      if_neg (by omega), if_neg (by omega), if_pos h4]

/-- C6 witness: the amended message theorem applied at a concrete out-of-range
chainType. -/
theorem C6_amended_error_messages_witness :
    createInteroperableAddress ⟨70000, some (.bytes [1]), none⟩ =
      .error (.validation "Chain type must be a 2-byte value (0-65535)") :=
  (C6_amended_error_messages ⟨70000, some (.bytes [1]), none⟩ [1] [] rfl rfl).2.2.2
    (by decide) (by decide) (by decide) (Or.inr (by decide))

/-- C5: numberToMinBytes n is the shortest big-endian byte sequence (no
leading zero byte) whose value is n, except that 0 maps to the empty
sequence; with the spec's concrete examples. -/
theorem C5_numberToMinBytes_minimal (n : Nat) :
    beVal (numberToMinBytes n) = n ∧
    (∀ b ∈ numberToMinBytes n, b < 256) ∧
    (n ≠ 0 → numberToMinBytes n ≠ [] ∧ (numberToMinBytes n).head? ≠ some 0) ∧
    (∀ l, (∀ b ∈ l, b < 256) → beVal l = n →
      (numberToMinBytes n).length ≤ l.length) ∧
    numberToMinBytes 0 = [] ∧ numberToMinBytes 1 = [0x01] ∧
    numberToMinBytes 137 = [0x89] ∧ numberToMinBytes 42161 = [0xA4, 0xB1] :=
  ⟨numberToMinBytes_beVal n, numberToMinBytes_bytes_lt n,
    numberToMinBytes_no_leading_zero n,
    fun l hb hv => numberToMinBytes_minimal_length n l hb hv,
    rfl, by decide, by decide, by decide⟩

/-- C5 witness: the minimality statement evaluated at 42161 against the
concrete representation [0xA4, 0xB1]. -/
theorem C5_numberToMinBytes_minimal_witness :
    beVal (numberToMinBytes 42161) = 42161 ∧
    (numberToMinBytes 42161).length ≤ [0xA4, 0xB1].length :=
  ⟨(C5_numberToMinBytes_minimal 42161).1,
    (C5_numberToMinBytes_minimal 42161).2.2.2.1 [0xA4, 0xB1]
      (by decide) (by decide)⟩

/-- C7: decoding inverts encoding: hexToBytes (bytesToHex b false) recovers
any byte sequence b; bytesToHex emits only uppercase hex digits and puts a
0x mark exactly when its flag (default true) is set; hexToBytes accepts an
optional 0x or 0X mark and hex digits of either case. -/
theorem C7_hex_roundtrip (b : List Nat) (hb : ∀ x ∈ b, x < 256) :
    hexToBytes (bytesToHex b false) = some b ∧
    bytesToHex b true = "0x" ++ bytesToHex b false ∧
    bytesToHex b = bytesToHex b true ∧
    (∀ c ∈ (bytesToHex b false).data, isUpperHexDigit c = true) ∧
    hexToBytes (String.mk ('0' :: 'x' :: (bytesToHex b false).data)) = some b ∧
    hexToBytes (String.mk ('0' :: 'X' :: (bytesToHex b false).data)) = some b ∧
    (∀ n, n < 16 → hexCharToNat? (hexDigitUpper n) = some n ∧
      hexCharToNat? (Char.toLower (hexDigitUpper n)) = some n) := by
  refine ⟨hexToBytes_bytesToHex b hb, rfl, rfl, ?_, ?_, ?_, ?_⟩
  · rw [bytesToHex_false_data]
    exact bytesHexChars_upper b hb
  · show hexPairsToBytes (stripHexMark ('0' :: 'x' :: (bytesToHex b false).data)) = some b
    rw [bytesToHex_false_data]
    show hexPairsToBytes (if ('0' : Char) = '0' ∧ (('x' : Char) = 'x' ∨ ('x' : Char) = 'X')
      then bytesHexChars b else '0' :: 'x' :: bytesHexChars b) = some b
    rw [if_pos ⟨rfl, Or.inl rfl⟩]
    exact hexPairsToBytes_bytesHexChars b hb
  · show hexPairsToBytes (stripHexMark ('0' :: 'X' :: (bytesToHex b false).data)) = some b
    rw [bytesToHex_false_data]
    show hexPairsToBytes (if ('0' : Char) = '0' ∧ (('X' : Char) = 'x' ∨ ('X' : Char) = 'X')
      then bytesHexChars b else '0' :: 'X' :: bytesHexChars b) = some b
    rw [if_pos ⟨rfl, Or.inr rfl⟩]
    exact hexPairsToBytes_bytesHexChars b hb
  · intro n hn
    exact ⟨hexDigitUpper_decode n hn, hexDigitUpper_toLower_decode n hn⟩

/-- C7 witness: the round-trip theorem applied to the concrete byte
sequence [0xAB, 0x0F]. -/
theorem C7_hex_roundtrip_witness :
    hexToBytes (bytesToHex [0xAB, 0x0F] false) = some [0xAB, 0x0F] :=
  (C7_hex_roundtrip [0xAB, 0x0F] (by decide)).1

/-- C2: for a valid Address, calculateChecksum hashes exactly the binary
layout with the 2-byte version prefix omitted (equivalently, the encoder
output with its first 2 bytes dropped), takes the first 4 digest bytes and
renders them as 8 uppercase hex characters with no 0x mark; consequently
two Addresses agreeing on chainType, chainReference and address but
differing in version have equal checksums. -/
theorem C2_checksum_layout_and_version_independence
    (keccak256 : List Nat → List Nat) (a a2 : InteroperableAddress)
    (inp : List Nat)
    (hin : inp = [a.chainType / 256, a.chainType % 256, a.chainReference.length] ++
      a.chainReference ++ [a.address.length] ++ a.address)
    (hct : a.chainType ≤ 65535) (hcr : a.chainReference.length ≤ 255)
    (ha : a.address.length ≤ 255)
    (h2 : a2.chainType = a.chainType) (h3 : a2.chainReference = a.chainReference)
    (h4 : a2.address = a.address)
    (hlen : (keccak256 inp).length = 32)
    (hbytes : ∀ x ∈ keccak256 inp, x < 256) :
    calculateChecksum keccak256 a = bytesToHex ((keccak256 inp).take 4) false ∧
    (encodeInteroperableAddress a).drop 2 = inp ∧
    calculateChecksum keccak256 a2 = calculateChecksum keccak256 a ∧
    (calculateChecksum keccak256 a).length = 8 ∧
    (∀ c ∈ (calculateChecksum keccak256 a).data, isUpperHexDigit c = true) := by
  have e1 : a.chainType / 256 % 256 = a.chainType / 256 := Nat.mod_eq_of_lt (by omega)
  have e2 : a.chainReference.length % 256 = a.chainReference.length :=
    Nat.mod_eq_of_lt (by omega)
  have e3 : a.address.length % 256 = a.address.length := Nat.mod_eq_of_lt (by omega)
  have key : concatBytes
      [numberToBytes a.chainType 2, numberToBytes a.chainReference.length 1,
        a.chainReference, numberToBytes a.address.length 1, a.address] = inp := by
    rw [hin]
    simp only [concatBytes, List.foldr, numberToBytes_two, numberToBytes_one,
      e1, e2, e3, List.append_assoc, List.cons_append, List.nil_append,
      List.append_nil]
  have c1 : calculateChecksum keccak256 a =
      bytesToHex ((keccak256 inp).take 4) false := by
    simp only [calculateChecksum]
    rw [key]
  refine ⟨c1, ?_, ?_, ?_, ?_⟩
  · rw [encode_explicit, hin]
    simp only [List.cons_append, List.drop_succ_cons, List.drop_zero, e1, e2, e3]
  · simp only [calculateChecksum, h2, h3, h4]
  · rw [c1]
    show (bytesHexChars ((keccak256 inp).take 4)).length = 8
    rw [bytesHexChars_length, List.length_take, hlen]
    rfl
  · rw [c1, bytesToHex_false_data]
    exact bytesHexChars_upper _ (fun x hx => hbytes x (List.take_subset 4 _ hx))

/-- C2 witness: the checksum theorem applied to concrete Addresses differing
only in version, with a concrete stand-in digest function. -/
theorem C2_checksum_layout_and_version_independence_witness :
    calculateChecksum (fun _ => List.range 32) ⟨7, 0, [1], [2]⟩ =
      calculateChecksum (fun _ => List.range 32) ⟨1, 0, [1], [2]⟩ :=
  (C2_checksum_layout_and_version_independence (fun _ => List.range 32)
    ⟨1, 0, [1], [2]⟩ ⟨7, 0, [1], [2]⟩ [0, 0, 1, 1, 1, 2] (by decide)
    (by decide) (by decide) (by decide) rfl rfl rfl (by decide)
    (by decide)).2.2.1
